import Mathlib

/-!
# Verification of the Hualien elementary-school scraping pipeline

Shallow embedding of the pure record-processing core of `src/scraper.py`
(class `SchoolScraper`) together with small state-transition models of the
effectful orchestration code, and proofs settling the specification claims.

Conventions of the embedding:
* Python `None` becomes `Option.none`; the nullable numeric fields of a
  school record are `Option Int`.
* Python truthiness of an optional int (`None` and `0` are falsy) is
  `truthyOpt`; truthiness of a string is comparison with `""`.
* Python regular expressions used by the source are transcribed as
  deterministic character-list parsers; the character class `\s` and
  `str.strip()` are modelled over the ASCII whitespace characters, and
  `\d` over the ASCII digits (the concrete strings appearing in the
  repository and in all theorems below only use those).
* Exception control flow is modelled either with `Except` results or by
  explicit outcome parameters at exactly the points where the source has
  a `try`/`except`.
-/

/-- ASCII whitespace, the model of Python's `\s` class and of the
character set stripped by `str.strip()`. -/
def isPySpace (c : Char) : Bool :=
  c = ' ' || c = '\t' || c = '\n' || c = '\r' || c = '\x0b' || c = '\x0c'

/-- Model of `str.strip()` on a character list: drop whitespace from both ends. -/
def stripChars (l : List Char) : List Char :=
  ((l.dropWhile isPySpace).reverse.dropWhile isPySpace).reverse

/-- Python `str.strip()`. -/
def pyStrip (s : String) : String :=
  ⟨stripChars s.data⟩

/-- Tail of the suffix pattern of `normalize_school_name`
(src/scraper.py:1909): after the whitespace there must come the literal
`花蓮縣`, then one or more characters other than `[`, then `[`, one or
more characters other than `]`, and a closing `]` ending the string
(Python's `$` also accepts a single trailing newline). -/
def matchCounty : List Char → Bool
  | '花' :: '蓮' :: '縣' :: r =>
    let mid := r.takeWhile (fun c => c ≠ '[')
    let r2 := r.dropWhile (fun c => c ≠ '[')
    !mid.isEmpty &&
      (match r2 with
       | '[' :: r3 =>
         let inner := r3.takeWhile (fun c => c ≠ ']')
         let r4 := r3.dropWhile (fun c => c ≠ ']')
         !inner.isEmpty && (r4 = [']'] || r4 = [']', '\n'])
       | _ => false)
  | _ => false

/-- The part of the pattern after the lazy group: `\s+花蓮縣[^\[]+\[[^\]]+\]$`.
`\s+` is deterministic here because `花` is not whitespace. -/
def tailMatches (l : List Char) : Bool :=
  !(l.takeWhile isPySpace).isEmpty && matchCounty (l.dropWhile isPySpace)

/-- Lazy matching of `^(.+?)\s+花蓮縣[^\[]+\[[^\]]+\]$`: the group takes the
shortest non-empty newline-free prefix after which the remainder of the
pattern matches to the end of the string.  Returns the length of the
captured group when the whole pattern matches. -/
def findSplit (l : List Char) : Option Nat :=
  (List.range l.length).find? (fun i =>
    decide (1 ≤ i) && (l.take i).all (fun c => c ≠ '\n') && tailMatches (l.drop i))

/-- Embedding of `SchoolScraper.normalize_school_name` (src/scraper.py:1891-1916):
empty input gives `''`; otherwise, if the display name matches
`^(.+?)\s+花蓮縣[^\[]+\[[^\]]+\]$` the stripped captured group is
returned, else the stripped input. -/
def normalize_school_name (s : String) : String :=
  if s = "" then ""
  else
    match findSplit s.data with
    | some i => pyStrip ⟨s.data.take i⟩
    | none => pyStrip s

/-- Digit-string value, most significant first. -/
def digitsVal (l : List Char) : Nat :=
  l.foldl (fun a c => 10 * a + (c.toNat - '0'.toNat)) 0

/-- Python `int()` applied to the cleaned text of `parse_number`: the
cleaned text consists only of digits and `-` characters, and `int`
accepts a non-empty digit run with at most one leading `-`; everything
else raises `ValueError`, which the source catches, so the model returns
`none` there. -/
def pyIntOfCleaned : List Char → Option Int
  | [] => none
  | c :: rest =>
    if c = '-' then
      if !rest.isEmpty && rest.all Char.isDigit then some (-(Int.ofNat (digitsVal rest)))
      else none
    else if (c :: rest).all Char.isDigit then some (Int.ofNat (digitsVal (c :: rest)))
    else none

/-- Embedding of `SchoolScraper.parse_number` (src/scraper.py:1878-1889): falsy (empty)
input gives `None`; otherwise every character that is neither a digit nor
`-` is removed (`re.sub(r'[^\d-]', '', text)`) and `int` is attempted on
the result, with `ValueError` (and the empty cleaned string) giving
`None`. -/
def parse_number (s : String) : Option Int :=
  if s = "" then none
  else pyIntOfCleaned (s.data.filter (fun c => c.isDigit || c = '-'))

/-- An `EntityRecord`: the school dictionary produced and consumed by the
scraper.  Field names follow the Python dictionary keys; the five numeric
fields are nullable. -/
structure School where
  subRegion : String := ""
  name : String := ""
  category : Option String := none
  classCount : Option Int := none
  studentCount : Option Int := none
  teacherCount : Option Int := none
  landArea : Option Int := none
  buildingArea : Option Int := none
deriving DecidableEq, Repr

/-- The five numeric fields of a record. -/
inductive NumField
  | cls
  | stu
  | tea
  | land
  | bld
deriving DecidableEq, Fintype

/-- Read one of the five numeric fields. -/
def getF (s : School) : NumField → Option Int
  | .cls => s.classCount
  | .stu => s.studentCount
  | .tea => s.teacherCount
  | .land => s.landArea
  | .bld => s.buildingArea

/-- Python truthiness of an optional integer: `None` and `0` are falsy. -/
def truthyOpt : Option Int → Bool
  | none => false
  | some n => n != 0

/-- Embedding of `any([school.get('班級數'), ..., school.get('校舍面積')])`
(src/scraper.py:1947-1961): the record "has data" when some numeric field
is truthy. -/
def hasData (s : School) : Bool :=
  truthyOpt s.classCount || truthyOpt s.studentCount || truthyOpt s.teacherCount ||
    truthyOpt s.landArea || truthyOpt s.buildingArea

/-- The field-wise merge of src/scraper.py:1970-1972: each of the five
fields of the existing record that is `None` is filled from the current
record when the latter is not `None`. -/
def fieldMergeInto (e s : School) : School :=
  { e with
    classCount := if e.classCount.isNone && s.classCount.isSome then s.classCount else e.classCount
    studentCount := if e.studentCount.isNone && s.studentCount.isSome then s.studentCount else e.studentCount
    teacherCount := if e.teacherCount.isNone && s.teacherCount.isSome then s.teacherCount else e.teacherCount
    landArea := if e.landArea.isNone && s.landArea.isSome then s.landArea else e.landArea
    buildingArea := if e.buildingArea.isNone && s.buildingArea.isSome then s.buildingArea else e.buildingArea }

/-- Lookup in the insertion-ordered dictionary `merged_schools`. -/
def lookupA (k : String) : List (String × School) → Option School
  | [] => none
  | (k', v) :: t => if k' = k then some v else lookupA k t

/-- Reassignment `merged_schools[k] = v` for a key already present:
the entry keeps its position. -/
def replaceA (k : String) (v : School) : List (String × School) → List (String × School)
  | [] => []
  | (k', v') :: t => if k' = k then (k', v) :: t else (k', v') :: replaceA k v t

/-- One iteration of the loop of `SchoolScraper.merge_school_data`
(src/scraper.py:1934-1989): records with a falsy name are skipped; the
normalized name is the dictionary key (the source's locals
`school_name`, `normalized_name`, `existing_has_data`, `current_has_data`
are inlined); on a duplicate key the branch is chosen by which of the two
records "has data", with the field-wise merge
when both do and the longer original display name (current original
versus stored name) when neither does. -/
def mergeStep (acc : List (String × School)) (school : School) : List (String × School) :=
  if school.name = "" then acc
  else
    match lookupA (normalize_school_name school.name) acc with
    | none =>
      acc ++ [(normalize_school_name school.name,
        { school with name := normalize_school_name school.name })]
    | some e =>
      if hasData school && !hasData e then
        replaceA (normalize_school_name school.name)
          { school with name := normalize_school_name school.name } acc
      else if hasData school && hasData e then
        replaceA (normalize_school_name school.name)
          { fieldMergeInto e school with name := normalize_school_name school.name } acc
      else if !hasData school && hasData e then
        replaceA (normalize_school_name school.name)
          { e with name := normalize_school_name school.name } acc
      else if school.name.length > e.name.length then
        replaceA (normalize_school_name school.name)
          { school with name := normalize_school_name school.name } acc
      else
        replaceA (normalize_school_name school.name)
          { e with name := normalize_school_name school.name } acc

/-- Embedding of `SchoolScraper.merge_school_data` (src/scraper.py:1918-1991): fold the
input over the insertion-ordered dictionary and return its values. -/
def merge_school_data (ss : List School) : List School :=
  (ss.foldl mergeStep []).map Prod.snd

/-- First record with the given name. -/
def findByName (k : String) : List School → Option School
  | [] => none
  | r :: t => if r.name = k then some r else findByName k t

/-- The finalized numeric field `f` of the merged record whose normalized
name is `k`, or `none` when no merged record has that name. -/
def mergedField (l : List School) (k : String) (f : NumField) : Option (Option Int) :=
  (findByName k (merge_school_data l)).map (fun r => getF r f)


/-- Substring test used to model Python's `in` on strings: does `h` start
with `n`? -/
def startsWithList : List Char → List Char → Bool
  | _, [] => true
  | [], _ :: _ => false
  | a :: as, b :: bs => a = b && startsWithList as bs

/-- Python `n in h` on strings (contiguous substring). -/
def containsSub (n : List Char) : List Char → Bool
  | [] => n.isEmpty
  | c :: t => startsWithList (c :: t) n || containsSub n t

/-- Python `needle in haystack` for strings. -/
def pyInStr (needle haystack : String) : Bool :=
  containsSub needle.data haystack.data

/-- Python `district or '未知'` for the `Optional[str]` argument
(src/scraper.py:1508, 1671): `None` and `''` are falsy. -/
def pyOrDistrict (district : Option String) : String :=
  match district with
  | some d => if d ≠ "" then d else "未知"
  | none => "未知"

/-- A tuple produced by `re.findall` in method 1 of
`SchoolScraper.parse_school_data` (src/scraper.py:1651-1658):
(school name, county, sub-region, school type), all pre-`strip`. -/
def ListingMatch := String × String × String × String
deriving DecidableEq

/-- The record built for one regex match in src/scraper.py:1670-1679:
all five numeric fields are `None` at this stage and `鄉鎮市區` is
`dist or district or '未知'`. -/
def mkListingRecord (district : Option String) (m : ListingMatch) : School :=
  { subRegion := if pyStrip m.2.2.1 ≠ "" then pyStrip m.2.2.1 else pyOrDistrict district
    name := pyStrip m.1
    category := some (pyStrip m.2.2.2) }

/-- The `continue` filter of src/scraper.py:1667-1668 followed by the
append of src/scraper.py:1680, for one match. -/
def strategy1_step (district : Option String) (acc : List School) (m : ListingMatch) :
    List School :=
  if (match district with
      | some d => d ≠ "" && !(pyInStr d (pyStrip m.2.2.1))
      | none => false) then acc
  else acc ++ [mkListingRecord district m]

/-- The match loop of method 1 (`div#search`) of
`SchoolScraper.parse_school_data` (src/scraper.py:1660-1680): when a
truthy `district` argument was supplied, a match whose stripped
sub-region text does not contain it is skipped (`continue`); every other
match yields a provisional record. -/
def strategy1_records (ms : List ListingMatch) (district : Option String) : List School :=
  ms.foldl (strategy1_step district) []

/-- The dictionary returned by `SchoolScraper.get_school_detail`
(src/scraper.py:589-595): it always carries exactly the five numeric
keys, each possibly `None`. -/
structure DetailData where
  classCount : Option Int := none
  studentCount : Option Int := none
  teacherCount : Option Int := none
  landArea : Option Int := none
  buildingArea : Option Int := none
deriving DecidableEq

/-- Outcome of the detail-extraction attempt for one entity inside the
loop of `parse_school_data_with_details` (src/scraper.py:1519-1570):
the call returns a detail dictionary, or the click fails and the empty
dictionary is used (src/scraper.py:1553-1555), or the attempt raises and
the inner `except` at src/scraper.py:1567 catches it. -/
inductive DetailOutcome
  | ok (d : DetailData)
  | noClick
  | raise
deriving DecidableEq

/-- Embedding of `school_data.update(detail_data)` (src/scraper.py:1559): the detail
dictionary always contains all five numeric keys, so all five fields of
the record are overwritten. -/
def applyDetail (s : School) (d : DetailData) : School :=
  { s with
    classCount := d.classCount
    studentCount := d.studentCount
    teacherCount := d.teacherCount
    landArea := d.landArea
    buildingArea := d.buildingArea }

/-- The fresh record built at src/scraper.py:1507-1515 for an entity that
is not yet in the listing output. -/
def defaultSchool (district : Option String) (nm : String) : School :=
  { subRegion := pyOrDistrict district, name := nm }

/-- Replace the first record with the given name (the source mutates the
dictionary object found in the list, so its position is preserved). -/
def replaceFirstByName (nm : String) (v : School) : List School → List School
  | [] => []
  | s :: t => if s.name = nm then v :: t else s :: replaceFirstByName nm v t

/-- One iteration of the per-entity loop of
`SchoolScraper.parse_school_data_with_details` (src/scraper.py:1492-1618):
look up the entity in the accumulated list by exact display name
(src/scraper.py:1497-1504), otherwise build the fresh record; attempt
detail extraction only when none of class/student/teacher count is truthy
(src/scraper.py:1518); a raised extraction error is caught by the inner
`except` (src/scraper.py:1567) leaving the record unchanged; finally the
record is stored back (appended when it was new, src/scraper.py:1573-1574).
`updatedSchool` is the conditional detail-update of src/scraper.py:1518-1570
applied to the looked-up or fresh record. -/
def updatedSchool (s0 : School) (o : DetailOutcome) : School :=
  if !(truthyOpt s0.classCount || truthyOpt s0.studentCount || truthyOpt s0.teacherCount) then
    match o with
    | .ok d => applyDetail s0 d
    | _ => s0
  else s0

def processEntity (district : Option String) (acc : List School)
    (e : String × DetailOutcome) : List School :=
  match acc.find? (fun s => s.name == e.1) with
  | some s0 => replaceFirstByName e.1 (updatedSchool s0 e.2) acc
  | none => acc ++ [updatedSchool (defaultSchool district e.1) e.2]

/-- The whole per-entity loop of `parse_school_data_with_details`
(src/scraper.py:1492-1618) over the deduplicated entity list
(`unique_schools`, whose names are distinct), starting from the records
already parsed from the listing. -/
def detailsLoop (district : Option String) (init : List School)
    (entities : List (String × DetailOutcome)) : List School :=
  entities.foldl (processEntity district) init

/-- The environment `SchoolScraper.get_all_schools`
(src/scraper.py:1993-2046) runs in: whether the browser context can be
entered (`async with self`, src/scraper.py:2011), the outcome of the
whole-county query (src/scraper.py:2015) and the outcome of each
per-district query (src/scraper.py:2027), each either a record list or a
raised exception. -/
structure ScrapeWorld where
  startOk : Bool
  county : Except String (List School)
  district : String → Except String (List School)

/-- The fixed district list of src/scraper.py:2003-2007. -/
def hualien_districts : List String :=
  ["花蓮市", "吉安鄉", "新城鄉", "秀林鄉", "壽豐鄉",
   "鳳林鎮", "光復鄉", "豐濱鄉", "瑞穗鄉", "玉里鎮",
   "富里鄉", "卓溪鄉", "萬榮鄉"]

/-- The per-district fallback loop (src/scraper.py:2024-2035): a district
whose query raises is logged and skipped (`continue`); a district with a
falsy (empty) result contributes nothing. -/
def districtLoop (w : ScrapeWorld) : List School :=
  hualien_districts.foldl
    (fun acc d =>
      match w.district d with
      | .ok l => if !l.isEmpty then acc ++ l else acc
      | .error _ => acc)
    []

/-- Embedding of `SchoolScraper.get_all_schools` (src/scraper.py:1993-2046).  The outer
`try`/`except` at src/scraper.py:2009/2036 catches every pipeline failure
(including a browser that cannot start) and only prints it; the merge at
src/scraper.py:2043 and the `return` at src/scraper.py:2046 are outside
the `try`, so the function always returns normally — the `Except` result
type records that no exception escapes. -/
def get_all_schools (w : ScrapeWorld) : Except String (List School) :=
  let all : List School :=
    if w.startOk then
      match w.county with
      | .ok cs => if !cs.isEmpty then cs else districtLoop w
      | .error _ => districtLoop w
    else []
  Except.ok (merge_school_data all)

/-- The keyword parameters accepted by `SchoolScraper.get_all_schools`:
its signature (src/scraper.py:1993) is `async def get_all_schools(self)`,
with no parameter besides `self`. -/
def get_all_schools_keyword_params : List String := []

/-- Python call binding: a call binds successfully only when every
supplied keyword argument names a declared parameter; otherwise the call
raises `TypeError` before the body runs. -/
def pyCallBindsKwargs (params kwargs : List String) : Bool :=
  kwargs.all (fun k => params.contains k)

/-- Which kind of secondary detail view the per-entity interaction of
`get_school_detail` opened: none, a genuinely new browser page (always
distinct from the main page, whose id is `0`, so the new page gets id
`d + 1`), or an in-place navigation of the main page to another URL. -/
inductive ViewKind
  | noView
  | newPage (d : Nat)
  | inPlace (url : String)

/-- How the body of `get_school_detail` exits: the early `return` paths
before/without extraction (e.g. src/scraper.py:669), normal completion,
`asyncio.TimeoutError` (handler at src/scraper.py:1049), or any other
exception (handler at src/scraper.py:1059). -/
inductive ExitKind
  | earlyReturn
  | success
  | timeout
  | error

/-- Browser-session state for the `get_school_detail` model: the set of
open pages (the main listing page has id `0`), the focused page, and the
URL currently shown in the main page. -/
structure SessionState where
  openPages : List Nat
  focus : Nat
  mainUrl : String
deriving DecidableEq, Repr

/-- Embedding of `SchoolScraper.get_school_detail` (src/scraper.py:574-1089) as a
state transition on the browser session, at the granularity of its
view handling.  Phase 1 is the click/open part of the body: a new page
appears in `context.pages` and takes focus, or the main page navigates in
place.  Phase 2 is the exit path actually taken: the success-path cleanup
(src/scraper.py:1009-1045 — close the new page and refocus, or `goto` the
recorded original URL), the `asyncio.TimeoutError` handler
(src/scraper.py:1049-1058 — close the new page and refocus), or the
generic handler (src/scraper.py:1059-1073 — additionally `goto` the
original URL when the main page moved).  Phase 3 is the `finally` block
(src/scraper.py:1074-1087): when more than one page is open, every page
other than the main one is closed and the main page is brought to front. -/
def get_school_detail_run (origUrl : String) (view : ViewKind) (exit : ExitKind) :
    SessionState :=
  let st0 : SessionState := ⟨[0], 0, origUrl⟩
  let st1 : SessionState :=
    match view with
    | .noView => st0
    | .newPage d => { st0 with openPages := st0.openPages ++ [d + 1], focus := d + 1 }
    | .inPlace u => { st0 with mainUrl := u }
  let st2 : SessionState :=
    match exit with
    | .earlyReturn => st1
    | .success =>
      match view with
      | .newPage d => { st1 with openPages := st1.openPages.filter (fun p => p != d + 1), focus := 0 }
      | _ => if st1.mainUrl ≠ origUrl then { st1 with mainUrl := origUrl } else st1
    | .timeout =>
      match view with
      | .newPage d => { st1 with openPages := st1.openPages.filter (fun p => p != d + 1), focus := 0 }
      | _ => st1
    | .error =>
      match view with
      | .newPage d => { st1 with openPages := st1.openPages.filter (fun p => p != d + 1), focus := 0 }
      | _ => if st1.mainUrl ≠ origUrl then { st1 with mainUrl := origUrl } else st1
  if st2.openPages.length > 1 then
    { st2 with openPages := st2.openPages.filter (fun p => p == 0), focus := 0 }
  else st2

/-- Invariant of the `merged_schools` dictionary: every stored record's
name equals its key (every branch of the loop writes the normalized name
into the stored record). -/
def NamesOk (acc : List (String × School)) : Prop :=
  ∀ p ∈ acc, p.2.name = p.1

/-- The dictionary keys stay distinct. -/
def KeysNodup (acc : List (String × School)) : Prop :=
  (acc.map Prod.fst).Nodup

/-- After processing, the record stored under key `k` has data and a
non-null field `f`. -/
def GoodAt (f : NumField) (k : String) (acc : List (String × School)) : Prop :=
  ∃ e, lookupA k acc = some e ∧ hasData e = true ∧ getF e f ≠ none

/-- The record stored by `mergeStep` on a duplicate key, before the
normalized name is written into it: the branch selection of
src/scraper.py:1963-1984 between the current record, the field-wise
merge, and the existing record. -/
def mergePayload (E C : School) : School :=
  if hasData C && !hasData E then C
  else if hasData C && hasData E then fieldMergeInto E C
  else if !hasData C && hasData E then E
  else if C.name.length > E.name.length then C
  else E


theorem lookupA_append_left {k : String} {acc l : List (String × School)} {e : School}
    (h : lookupA k acc = some e) : lookupA k (acc ++ l) = some e := by
  induction acc with
  | nil => simp [lookupA] at h
  | cons p t ih =>
    obtain ⟨k', v⟩ := p
    by_cases hk : k' = k
    · simp [lookupA, hk] at h ⊢; exact h
    · simp [lookupA, hk] at h ⊢; exact ih h

theorem lookupA_append_none {k : String} {acc : List (String × School)}
    (h : lookupA k acc = none) (l : List (String × School)) :
    lookupA k (acc ++ l) = lookupA k l := by
  induction acc with
  | nil => simp
  | cons p t ih =>
    obtain ⟨k', v⟩ := p
    by_cases hk : k' = k
    · simp [lookupA, hk] at h
    · simp [lookupA, hk] at h ⊢; exact ih h

theorem lookupA_eq_none_iff {k : String} {acc : List (String × School)} :
    lookupA k acc = none ↔ ∀ p ∈ acc, p.1 ≠ k := by
  induction acc with
  | nil => simp [lookupA]
  | cons p t ih =>
    obtain ⟨k', v⟩ := p
    by_cases hk : k' = k
    · simp [lookupA, hk]
    · simp [lookupA, hk, ih]

theorem lookupA_mem {k : String} {acc : List (String × School)} {v : School}
    (h : lookupA k acc = some v) : (k, v) ∈ acc := by
  induction acc with
  | nil => simp [lookupA] at h
  | cons p t ih =>
    obtain ⟨k', v'⟩ := p
    by_cases hk : k' = k
    · simp [lookupA, hk] at h; simp [hk, h]
    · simp [lookupA, hk] at h; simp [ih h]

theorem mem_replaceA {k : String} {v : School} {acc : List (String × School)} :
    ∀ p ∈ replaceA k v acc, p ∈ acc ∨ p = (k, v) := by
  induction acc with
  | nil => simp [replaceA]
  | cons q t ih =>
    obtain ⟨k', v'⟩ := q
    by_cases hk : k' = k
    · intro p hp
      simp [replaceA, hk] at hp
      rcases hp with h | h
      · right; simp [h, hk]
      · left; simp [h]
    · intro p hp
      simp [replaceA, hk] at hp
      rcases hp with h | h
      · left; simp [h]
      · rcases ih p h with h' | h'
        · left; simp [h']
        · right; exact h'

theorem keys_replaceA {k : String} {v : School} {acc : List (String × School)} :
    (replaceA k v acc).map Prod.fst = acc.map Prod.fst := by
  induction acc with
  | nil => rfl
  | cons q t ih =>
    obtain ⟨k', v'⟩ := q
    by_cases hk : k' = k
    · simp [replaceA, hk]
    · simp [replaceA, hk, ih]

theorem lookupA_replaceA_self {k : String} {v e : School} {acc : List (String × School)}
    (h : lookupA k acc = some e) : lookupA k (replaceA k v acc) = some v := by
  induction acc with
  | nil => simp [lookupA] at h
  | cons q t ih =>
    obtain ⟨k', v'⟩ := q
    by_cases hk : k' = k
    · simp [replaceA, lookupA, hk]
    · simp [lookupA, hk] at h
      simp [replaceA, lookupA, hk, ih h]

theorem lookupA_replaceA_ne {k k' : String} {v : School} {acc : List (String × School)}
    (h : k' ≠ k) : lookupA k' (replaceA k v acc) = lookupA k' acc := by
  induction acc with
  | nil => rfl
  | cons q t ih =>
    obtain ⟨k'', v'⟩ := q
    by_cases hk : k'' = k
    · subst hk
      simp [replaceA, lookupA, Ne.symm h]
    · simp [replaceA, lookupA, hk, ih]

theorem getF_setName (s : School) (k : String) (f : NumField) :
    getF { s with name := k } f = getF s f := by
  cases f <;> rfl

theorem hasData_setName (s : School) (k : String) :
    hasData { s with name := k } = hasData s := rfl

theorem getF_fieldMergeInto (e s : School) (f : NumField) :
    getF (fieldMergeInto e s) f =
      if (getF e f).isNone && (getF s f).isSome then getF s f else getF e f := by
  cases f <;> rfl

theorem getF_fieldMergeInto_setName (e s : School) (k : String) (f : NumField) :
    getF (fieldMergeInto { e with name := k } s) f = getF (fieldMergeInto e s) f := by
  cases f <;> rfl

theorem truthyOpt_ne_none {o : Option Int} (h : truthyOpt o = true) : o ≠ none := by
  cases o with
  | none => simp [truthyOpt] at h
  | some n => simp

theorem hasData_exists {e : School} (h : hasData e = true) :
    ∃ g, truthyOpt (getF e g) = true := by
  simp only [hasData, Bool.or_eq_true] at h
  rcases h with ((((h | h) | h) | h) | h)
  · exact ⟨.cls, h⟩
  · exact ⟨.stu, h⟩
  · exact ⟨.tea, h⟩
  · exact ⟨.land, h⟩
  · exact ⟨.bld, h⟩

theorem hasData_of_truthy {e : School} {g : NumField} (h : truthyOpt (getF e g) = true) :
    hasData e = true := by
  cases g <;> simp only [getF] at h <;> simp [hasData, h]

theorem fieldMergeInto_hasData {e : School} (s : School) (h : hasData e = true) :
    hasData (fieldMergeInto e s) = true := by
  obtain ⟨g, hg⟩ := hasData_exists h
  apply hasData_of_truthy (g := g)
  rw [getF_fieldMergeInto]
  have : (getF e g).isNone = false := by
    cases ho : getF e g with
    | none => rw [ho] at hg; simp [truthyOpt] at hg
    | some n => simp
  simp [this, hg]

theorem getF_fieldMergeInto_ne_none {e s : School} {f : NumField}
    (h : getF e f ≠ none ∨ getF s f ≠ none) : getF (fieldMergeInto e s) f ≠ none := by
  rw [getF_fieldMergeInto]
  cases he : getF e f with
  | some n => simp [he]
  | none =>
    rcases h with h | h
    · exact absurd he h
    · cases hs : getF s f with
      | none => exact absurd hs h
      | some m => simp [he, hs]


theorem namesOk_mergeStep {acc : List (String × School)} {s : School}
    (h : NamesOk acc) : NamesOk (mergeStep acc s) := by
  unfold mergeStep
  by_cases hn : s.name = ""
  · rw [if_pos hn]; exact h
  · rw [if_neg hn]
    cases hl : lookupA (normalize_school_name s.name) acc with
    | none =>
      dsimp only
      intro p hp
      rcases List.mem_append.1 hp with h' | h'
      · exact h p h'
      · simp at h'
        simp [h']
    | some e =>
      dsimp only
      have hrep : ∀ v : School, v.name = normalize_school_name s.name →
          NamesOk (replaceA (normalize_school_name s.name) v acc) := by
        intro v hv p hp
        rcases mem_replaceA p hp with h' | h'
        · exact h p h'
        · simp [h', hv]
      split
      · apply hrep; rfl
      · split
        · apply hrep; rfl
        · split
          · apply hrep; rfl
          · split
            · apply hrep; rfl
            · apply hrep; rfl

theorem namesOk_fold {acc : List (String × School)} (h : NamesOk acc) :
    ∀ l : List School, NamesOk (l.foldl mergeStep acc) := by
  intro l
  induction l generalizing acc with
  | nil => exact h
  | cons s t ih => exact ih (namesOk_mergeStep h)

theorem keys_mergeStep {acc : List (String × School)} {s : School} {q : String}
    (h : q ∈ (mergeStep acc s).map Prod.fst) :
    q ∈ acc.map Prod.fst ∨ (s.name ≠ "" ∧ q = normalize_school_name s.name) := by
  unfold mergeStep at h
  by_cases hn : s.name = ""
  · rw [if_pos hn] at h; exact Or.inl h
  · rw [if_neg hn] at h
    cases hl : lookupA (normalize_school_name s.name) acc with
    | none =>
      rw [hl] at h
      dsimp only at h
      rw [List.map_append] at h
      rcases List.mem_append.1 h with h' | h'
      · exact Or.inl h'
      · simp at h'
        exact Or.inr ⟨hn, h'⟩
    | some e =>
      rw [hl] at h
      dsimp only at h
      have key : ∀ v : School,
          q ∈ (replaceA (normalize_school_name s.name) v acc).map Prod.fst →
          q ∈ acc.map Prod.fst := fun v hv => by rwa [keys_replaceA] at hv
      revert h
      split
      · intro h; exact Or.inl (key _ h)
      · split
        · intro h; exact Or.inl (key _ h)
        · split
          · intro h; exact Or.inl (key _ h)
          · split
            · intro h; exact Or.inl (key _ h)
            · intro h; exact Or.inl (key _ h)

theorem keys_fold_origin :
    ∀ (l : List School) (acc : List (String × School)) (p : String × School),
      p ∈ l.foldl mergeStep acc →
      p.1 ∈ acc.map Prod.fst ∨ ∃ s ∈ l, s.name ≠ "" ∧ p.1 = normalize_school_name s.name := by
  intro l
  induction l with
  | nil =>
    intro acc p hp
    exact Or.inl (List.mem_map.2 ⟨p, hp, rfl⟩)
  | cons s t ih =>
    intro acc p hp
    rcases ih (mergeStep acc s) p hp with h | h
    · rcases keys_mergeStep h with h' | h'
      · exact Or.inl h'
      · exact Or.inr ⟨s, by simp, h'⟩
    · obtain ⟨s', hs', h'⟩ := h
      exact Or.inr ⟨s', by simp [hs'], h'⟩


theorem keysNodup_mergeStep {acc : List (String × School)} {s : School}
    (h : KeysNodup acc) : KeysNodup (mergeStep acc s) := by
  unfold KeysNodup mergeStep
  by_cases hn : s.name = ""
  · rw [if_pos hn]; exact h
  · rw [if_neg hn]
    cases hl : lookupA (normalize_school_name s.name) acc with
    | none =>
      dsimp only
      have hnotin : normalize_school_name s.name ∉ acc.map Prod.fst := by
        intro hmem
        obtain ⟨p, hp, hq⟩ := List.mem_map.1 hmem
        exact (lookupA_eq_none_iff.1 hl p hp) hq
      rw [List.map_append]
      simp [List.nodup_append, hnotin]
      exact h
    | some e =>
      dsimp only
      have key : ∀ v : School,
          ((replaceA (normalize_school_name s.name) v acc).map Prod.fst).Nodup := by
        intro v; rw [keys_replaceA]; exact h
      split
      · exact key _
      · split
        · exact key _
        · split
          · exact key _
          · split
            · exact key _
            · exact key _

theorem keysNodup_fold {acc : List (String × School)} (h : KeysNodup acc) :
    ∀ l : List School, KeysNodup (l.foldl mergeStep acc) := by
  intro l
  induction l generalizing acc with
  | nil => exact h
  | cons s t ih => exact ih (keysNodup_mergeStep h)


theorem goodAt_mergeStep {f : NumField} {k : String} {acc : List (String × School)}
    {s : School} (hg : GoodAt f k acc) : GoodAt f k (mergeStep acc s) := by
  obtain ⟨e, he, hd, hf⟩ := hg
  unfold mergeStep
  by_cases hn : s.name = ""
  · rw [if_pos hn]; exact ⟨e, he, hd, hf⟩
  · rw [if_neg hn]
    by_cases hk : normalize_school_name s.name = k
    · rw [hk, he]
      dsimp only
      by_cases hcs : hasData s = true
      · simp only [hd, hcs, Bool.not_true, Bool.and_false, Bool.and_true, Bool.false_eq_true,
          if_false, if_true, ite_true, ite_false]
        refine ⟨_, lookupA_replaceA_self (v := { fieldMergeInto e s with name := k }) he, ?_, ?_⟩
        · rw [show hasData { fieldMergeInto e s with name := k } = hasData (fieldMergeInto e s) from rfl]
          exact fieldMergeInto_hasData s hd
        · rw [getF_setName]
          exact getF_fieldMergeInto_ne_none (Or.inl hf)
      · have hcs' : hasData s = false := by simpa using hcs
        simp only [hd, hcs', Bool.false_and, Bool.not_false, Bool.true_and, Bool.not_true,
          Bool.and_false, Bool.and_true, Bool.false_eq_true, if_false, if_true, ite_true, ite_false]
        refine ⟨_, lookupA_replaceA_self (v := { e with name := k }) he, ?_, ?_⟩
        · rw [hasData_setName]; exact hd
        · rw [getF_setName]; exact hf
    · cases hl : lookupA (normalize_school_name s.name) acc with
      | none =>
        dsimp only
        exact ⟨e, lookupA_append_left he, hd, hf⟩
      | some e' =>
        dsimp only
        have hne : k ≠ normalize_school_name s.name := fun hh => hk hh.symm
        have key : ∀ v : School,
            GoodAt f k (replaceA (normalize_school_name s.name) v acc) := by
          intro v
          exact ⟨e, by rw [lookupA_replaceA_ne hne]; exact he, hd, hf⟩
        split
        · exact key _
        · split
          · exact key _
          · split
            · exact key _
            · split
              · exact key _
              · exact key _

theorem goodAt_create {f : NumField} {acc : List (String × School)} {s : School}
    (hn : s.name ≠ "") (hd : hasData s = true) (hf : getF s f ≠ none) :
    GoodAt f (normalize_school_name s.name) (mergeStep acc s) := by
  unfold mergeStep
  rw [if_neg hn]
  cases hl : lookupA (normalize_school_name s.name) acc with
  | none =>
    dsimp only
    refine ⟨{ s with name := normalize_school_name s.name }, ?_, ?_, ?_⟩
    · exact (lookupA_append_none hl _).trans (by simp [lookupA])
    · rw [hasData_setName]; exact hd
    · rw [getF_setName]; exact hf
  | some e =>
    dsimp only
    by_cases hde : hasData e = true
    · simp only [hd, hde, Bool.not_true, Bool.and_false, Bool.and_true, Bool.false_eq_true,
        if_false, if_true, ite_true, ite_false]
      refine ⟨_, lookupA_replaceA_self
        (v := { fieldMergeInto e s with name := normalize_school_name s.name }) hl, ?_, ?_⟩
      · rw [show hasData { fieldMergeInto e s with name := normalize_school_name s.name } =
            hasData (fieldMergeInto e s) from rfl]
        exact fieldMergeInto_hasData s hde
      · rw [getF_setName]
        exact getF_fieldMergeInto_ne_none (Or.inr hf)
    · have hde' : hasData e = false := by simpa using hde
      simp only [hd, hde', Bool.not_false, Bool.and_true, Bool.true_and, Bool.not_true,
        Bool.and_false, Bool.false_eq_true, if_false, if_true, ite_true, ite_false]
      refine ⟨_, lookupA_replaceA_self
        (v := { s with name := normalize_school_name s.name }) hl, ?_, ?_⟩
      · rw [hasData_setName]; exact hd
      · rw [getF_setName]; exact hf

theorem goodAt_fold {f : NumField} {k : String} :
    ∀ (l : List School) (acc : List (String × School)),
      GoodAt f k acc → GoodAt f k (l.foldl mergeStep acc) := by
  intro l
  induction l with
  | nil => intro acc h; exact h
  | cons s t ih => intro acc h; exact ih _ (goodAt_mergeStep h)

/-- C4, counterexample.  The claim "merging never downgrades a field from
a known value to null" is false as stated: a record whose only known
numeric value is `0` is treated as having *no* data by the truthiness
test `any([...])` (src/scraper.py:1947-1953), so it is wholly replaced by
a later record that has data, and its known `0` is downgraded to null.
Here `班級數 = 0` of the first record is lost. -/
theorem c4_counterexample :
    ({ name := "甲", classCount := some 0 } : School).classCount ≠ none ∧
    ¬ ∃ r ∈ merge_school_data
        [{ name := "甲", classCount := some 0 }, { name := "甲", studentCount := some 5 }],
        r.name = normalize_school_name "甲" ∧ r.classCount ≠ none := by
  decide

/-- C4, amended.  If an input record has a non-empty name, a non-null
value for numeric field `f`, and at least one *truthy* (non-null and
non-zero) numeric field — so that `merge_school_data`'s truthiness test
counts it as having data — then the merged output contains a record under
its normalized name whose field `f` is still non-null. -/
theorem c4_no_downgrade_amended (ss : List School) (s : School) (f : NumField)
    (hs : s ∈ ss) (hn : s.name ≠ "") (hd : hasData s = true) (hf : getF s f ≠ none) :
    ∃ r ∈ merge_school_data ss, r.name = normalize_school_name s.name ∧ getF r f ≠ none := by
  have aux : ∀ (l : List School) (acc : List (String × School)), s ∈ l →
      GoodAt f (normalize_school_name s.name) (l.foldl mergeStep acc) := by
    intro l
    induction l with
    | nil => intro acc h; simp at h
    | cons a t ih =>
      intro acc hmem
      rcases List.mem_cons.1 hmem with rfl | hmem'
      · exact goodAt_fold t _ (goodAt_create hn hd hf)
      · exact ih _ hmem'
  obtain ⟨e, he, hde, hfe⟩ := aux ss [] hs
  have hmem := lookupA_mem he
  have hnames : NamesOk (ss.foldl mergeStep []) :=
    namesOk_fold (fun p hp => absurd hp (List.not_mem_nil p)) ss
  exact ⟨e, List.mem_map.2 ⟨_, hmem, rfl⟩, hnames _ hmem, hfe⟩

/-- Witness for `c4_no_downgrade_amended` at a concrete input. -/
theorem c4_witness :
    ∃ r ∈ merge_school_data [{ name := "乙", classCount := some 7 }],
      r.name = normalize_school_name "乙" ∧ getF r NumField.cls ≠ none :=
  c4_no_downgrade_amended [{ name := "乙", classCount := some 7 }]
    { name := "乙", classCount := some 7 } NumField.cls
    (by decide) (by decide) (by decide) (by decide)

/-- C8, counterexample.  A record whose display name is non-empty can
normalize to the empty string (the lazy group captures a single space,
which `strip` then erases), so the merged output can contain a record
with an empty name. -/
theorem c8_counterexample :
    ¬ ∀ r ∈ merge_school_data [({ name := "  花蓮縣B[C]" } : School)], r.name ≠ "" := by
  decide

/-- C8, amended.  Every merged output record carries the normalized name
of some input record with a non-empty display name; provided no input
display name normalizes to the empty string, every output name is
non-empty. -/
theorem c8_nonempty_names_amended (ss : List School)
    (h : ∀ s ∈ ss, s.name ≠ "" → normalize_school_name s.name ≠ "") :
    ∀ r ∈ merge_school_data ss, r.name ≠ "" := by
  intro r hr
  obtain ⟨p, hp, rfl⟩ := List.mem_map.1 hr
  have hname : p.2.name = p.1 :=
    namesOk_fold (fun q hq => absurd hq (List.not_mem_nil q)) ss p hp
  rcases keys_fold_origin ss [] p hp with h' | ⟨s, hs, hn, he⟩
  · simp at h'
  · rw [hname, he]; exact h s hs hn

/-- Witness for `c8_nonempty_names_amended` at a concrete input. -/
theorem c8_witness : ({ name := "丙" } : School).name ≠ "" :=
  c8_nonempty_names_amended [{ name := "丙" }] (by decide) { name := "丙" } (by decide)

/-- C1.  The spec (and the repository's own incremental-save test,
src/test_incremental_save.py:44, which calls
`scraper.get_all_schools(on_school_scraped=save_callback)`) requires the
full-batch entry point to accept a per-entity streaming callback, but the
implemented signature `async def get_all_schools(self)`
(src/scraper.py:1993) declares no such parameter, so that call raises
`TypeError` before any scraping happens: the keyword argument does not
bind. -/
theorem c1_get_all_schools_rejects_callback :
    pyCallBindsKwargs get_all_schools_keyword_params ["on_school_scraped"] = false := by
  rfl

/-- C2, counterexample.  When the browser context cannot even be entered
(total pipeline failure), `get_all_schools` does not surface an error:
the outer `except` (src/scraper.py:2036) swallows it and the function
returns the merged empty list. -/
theorem c2_counterexample :
    get_all_schools ⟨false, Except.ok [], fun _ => Except.ok []⟩ = Except.ok [] ∧
    ¬ ∃ e, get_all_schools ⟨false, Except.ok [], fun _ => Except.ok []⟩ = Except.error e := by
  constructor
  · rfl
  · rintro ⟨e, he⟩
    exact Except.noConfusion ((rfl : get_all_schools ⟨false, Except.ok [], fun _ => Except.ok []⟩ = Except.ok []) ▸ he)

/-- C2, amended.  `get_all_schools` never propagates an exception: for
every environment (including total pipeline failure) it returns normally
with the merged accumulated list — empty on total failure. -/
theorem c2_total_failure_swallowed (w : ScrapeWorld) :
    ∃ l, get_all_schools w = Except.ok l :=
  ⟨_, rfl⟩

/-- C9.  On every exit path of `get_school_detail` — early return, normal
completion, `asyncio.TimeoutError`, or any other exception — every open
secondary view distinct from the main listing page has been closed and
the main listing page has focus when the function returns: the `finally`
block (src/scraper.py:1074-1087) closes all non-main pages and brings the
main page to front, on top of the per-handler cleanup. -/
theorem c9_detail_view_scoped (origUrl : String) (view : ViewKind) (ek : ExitKind) :
    (get_school_detail_run origUrl view ek).openPages = [0] ∧
    (get_school_detail_run origUrl view ek).focus = 0 := by
  cases view <;> cases ek <;>
    simp [get_school_detail_run, List.filter] <;>
    split <;> simp_all

theorem startsWithList_nil (h : List Char) : startsWithList h [] = true := by
  cases h <;> rfl

theorem containsSub_nil (h : List Char) : containsSub [] h = true := by
  cases h with
  | nil => rfl
  | cons c t => simp [containsSub, startsWithList_nil]

theorem pyInStr_empty_needle (s : String) : pyInStr "" s = true :=
  containsSub_nil s.data

theorem string_eq_empty_of_data {s : String} (h : s.data = []) : s = "" := by
  cases s with
  | mk l => rw [show l = [] from h]

theorem pyInStr_ne_empty {d dist : String} (hd : d ≠ "") (h : pyInStr d dist = true) :
    dist ≠ "" := by
  intro h0
  subst h0
  unfold pyInStr containsSub at h
  have hdat : d.data ≠ [] := fun he => hd (string_eq_empty_of_data he)
  simp at h
  exact hdat h

/-- C10.  Whenever `parse_school_data` is called with a non-null
`district` argument and produces its output through the delimited-text
(`div#search`) strategy, every returned record's `鄉鎮市區` field contains
the requested district as a substring: matches whose parsed sub-region
does not contain it are dropped by the `continue` at
src/scraper.py:1667-1668, and kept records carry the parsed sub-region
(which then contains the district) or, when the district string is empty,
contain it trivially. -/
theorem c10_district_filter (ms : List ListingMatch) (d : String) :
    ∀ r ∈ strategy1_records ms (some d), pyInStr d r.subRegion = true := by
  have aux : ∀ (l : List ListingMatch) (acc : List School),
      (∀ r ∈ acc, pyInStr d r.subRegion = true) →
      ∀ r ∈ l.foldl (strategy1_step (some d)) acc, pyInStr d r.subRegion = true := by
    intro l
    induction l with
    | nil => intro acc h; exact h
    | cons m t ih =>
      intro acc hacc
      apply ih
      intro r hr
      unfold strategy1_step at hr
      dsimp only at hr
      by_cases hcond : (d ≠ "" && !(pyInStr d (pyStrip m.2.2.1))) = true
      · rw [if_pos hcond] at hr
        exact hacc r hr
      · rw [if_neg hcond] at hr
        rcases List.mem_append.1 hr with h' | h'
        · exact hacc r h'
        · have hrr : r = mkListingRecord (some d) m := by simpa using h'
          subst hrr
          by_cases hd : d = ""
          · subst hd; exact pyInStr_empty_needle _
          · have hin : pyInStr d (pyStrip m.2.2.1) = true := by
              by_contra hno
              exact hcond (by simp [hd, hno])
            have hdist : pyStrip m.2.2.1 ≠ "" := pyInStr_ne_empty hd hin
            unfold mkListingRecord
            simpa [hdist] using hin
  intro r hr
  exact aux ms [] (fun r h => absurd h (List.not_mem_nil r)) r hr

/-- Witness for `c10_district_filter` at a concrete input. -/
theorem c10_witness :
    pyInStr "蓮" (mkListingRecord (some "蓮") ("甲小", "花蓮縣", "花蓮市", "縣市立")).subRegion = true :=
  c10_district_filter [("甲小", "花蓮縣", "花蓮市", "縣市立")] "蓮"
    (mkListingRecord (some "蓮") ("甲小", "花蓮縣", "花蓮市", "縣市立")) (by decide)

theorem char_digit_ne_dash {c : Char} (h : c.isDigit = true) : c ≠ '-' := by
  intro he
  subst he
  exact absurd h (by decide)

theorem pyIntOfCleaned_digits {l : List Char} (h0 : l ≠ [])
    (h : l.all Char.isDigit = true) :
    pyIntOfCleaned l = some (Int.ofNat (digitsVal l)) := by
  cases l with
  | nil => exact absurd rfl h0
  | cons c rest =>
    have hc : c.isDigit = true := by
      simp [List.all_cons] at h
      exact h.1
    have hcd : ¬ c = '-' := char_digit_ne_dash hc
    simp [pyIntOfCleaned, hcd, h]

theorem pyIntOfCleaned_dashes {l : List Char} (h : ∀ c ∈ l, c = '-') :
    pyIntOfCleaned l = none := by
  cases l with
  | nil => rfl
  | cons c rest =>
    have hc : c = '-' := h c (by simp)
    subst hc
    simp only [pyIntOfCleaned, if_pos rfl]
    cases rest with
    | nil => simp
    | cons b u =>
      have hb : b = '-' := h b (by simp)
      subst hb
      have hnd : ('-' : Char).isDigit = false := by decide
      simp [List.all_cons, hnd]

theorem pyIntOfCleaned_neg {l : List Char} (h0 : l ≠ [])
    (h : l.all Char.isDigit = true) :
    pyIntOfCleaned ('-' :: l) = some (-(Int.ofNat (digitsVal l))) := by
  simp only [pyIntOfCleaned, if_pos rfl]
  have h1 : l.isEmpty = false := by
    cases l with
    | nil => exact absurd rfl h0
    | cons a t => rfl
  simp [h1, h]

/-- C7.  `parse_number` strips thousands separators and every non-digit
character except `-` and converts the rest with `int`, returning null —
never raising — on empty or malformed text.  In particular
`"1,234"` parses to `1234`, `""` and `"abc"` to null; a text without any
digit parses to null; a non-empty text of digits and commas parses to the
value of its digits, and with a leading `-` to the negated value. -/
theorem c7_parse_number_spec :
    parse_number "1,234" = some 1234 ∧
    parse_number "" = none ∧
    parse_number "abc" = none ∧
    (∀ s : String, (∀ c ∈ s.data, c.isDigit = false) → parse_number s = none) ∧
    (∀ s : String, s.data ≠ [] → (∀ c ∈ s.data, c.isDigit = true ∨ c = ',') →
      (∃ c ∈ s.data, c.isDigit = true) →
      parse_number s = some (Int.ofNat (digitsVal (s.data.filter Char.isDigit))) ∧
      parse_number ("-" ++ s) = some (-(Int.ofNat (digitsVal (s.data.filter Char.isDigit))))) := by
  refine ⟨by decide, by decide, by decide, ?_, ?_⟩
  · intro s hs
    unfold parse_number
    by_cases h0 : s = ""
    · simp [h0]
    · rw [if_neg h0]
      apply pyIntOfCleaned_dashes
      intro c hc
      obtain ⟨hmem, hp⟩ := List.mem_filter.1 hc
      have hd := hs c hmem
      simpa [hd] using hp
  · intro s h0 hcs hex
    have hs : s ≠ "" := fun he => h0 (by rw [he])
    have hfe : s.data.filter (fun c => c.isDigit || c = '-') = s.data.filter Char.isDigit := by
      apply List.filter_congr
      intro c hc
      rcases hcs c hc with h | h
      · simp [h]
      · subst h; decide
    have hne : s.data.filter Char.isDigit ≠ [] := by
      obtain ⟨c, hc, hcd⟩ := hex
      exact List.ne_nil_of_mem (List.mem_filter.2 ⟨hc, hcd⟩)
    have hall : (s.data.filter Char.isDigit).all Char.isDigit = true := by
      rw [List.all_eq_true]
      intro c hc
      exact (List.mem_filter.1 hc).2
    constructor
    · unfold parse_number
      rw [if_neg hs, hfe]
      exact pyIntOfCleaned_digits hne hall
    · have hms : ("-" ++ s) ≠ "" := by
        intro he
        have h1 : ("-" ++ s).data = [] := by rw [he]
        rw [String.data_append] at h1
        simp at h1
      unfold parse_number
      rw [if_neg hms, String.data_append]
      have h2 : ("-".data : List Char) ++ s.data = '-' :: s.data := rfl
      rw [h2]
      have hstep : List.filter (fun c => c.isDigit || c = '-') ('-' :: s.data) =
          '-' :: List.filter (fun c => c.isDigit || c = '-') s.data := by
        simp
      rw [hstep, hfe]
      exact pyIntOfCleaned_neg hne hall

/-- Witness for the quantified parts of `c7_parse_number_spec` at a
concrete input. -/
theorem c7_witness : parse_number "12,3" = some 123 ∧ parse_number "-12,3" = some (-123) := by
  have h := c7_parse_number_spec.2.2.2.2 "12,3" (by decide) (by decide) (by decide)
  refine ⟨?_, ?_⟩
  · rw [h.1]; decide
  · rw [show ("-12,3" : String) = "-" ++ "12,3" from rfl, h.2]; decide

theorem dropWhile_idem (p : Char → Bool) (l : List Char) :
    (l.dropWhile p).dropWhile p = l.dropWhile p := by
  induction l with
  | nil => rfl
  | cons a t ih =>
    by_cases h : p a
    · simp [List.dropWhile_cons, h, ih]
    · simp [List.dropWhile_cons, h]

theorem dropWhile_head_not {p : Char → Bool} {l t : List Char} {a : Char}
    (h : l.dropWhile p = a :: t) : p a = false := by
  induction l with
  | nil => simp [List.dropWhile] at h
  | cons b u ih =>
    by_cases hb : p b
    · rw [List.dropWhile_cons, if_pos hb] at h
      exact ih h
    · rw [List.dropWhile_cons, if_neg hb] at h
      have hba : b = a := (List.cons.injEq _ _ _ _ ▸ h).1
      rw [← hba]
      simpa using hb

theorem dropWhile_exists_append (p : Char → Bool) (l : List Char) :
    ∃ t, t ++ l.dropWhile p = l := by
  induction l with
  | nil => exact ⟨[], rfl⟩
  | cons a u ih =>
    by_cases h : p a
    · obtain ⟨t, ht⟩ := ih
      exact ⟨a :: t, by simp [List.dropWhile_cons, h, ht]⟩
    · exact ⟨[], by simp [List.dropWhile_cons, h]⟩

theorem stripChars_idem (l : List Char) : stripChars (stripChars l) = stripChars l := by
  unfold stripChars
  obtain ⟨t0, ht0⟩ := dropWhile_exists_append isPySpace (l.dropWhile isPySpace).reverse
  have hy : l.dropWhile isPySpace =
      ((l.dropWhile isPySpace).reverse.dropWhile isPySpace).reverse ++ t0.reverse := by
    have h1 := congrArg List.reverse ht0
    rw [List.reverse_append, List.reverse_reverse] at h1
    exact h1.symm
  have claimA :
      ((l.dropWhile isPySpace).reverse.dropWhile isPySpace).reverse.dropWhile isPySpace =
      ((l.dropWhile isPySpace).reverse.dropWhile isPySpace).reverse := by
    cases hz : ((l.dropWhile isPySpace).reverse.dropWhile isPySpace).reverse with
    | nil => simp
    | cons a t =>
      rw [hz] at hy
      have ha : isPySpace a = false := dropWhile_head_not (t := t ++ t0.reverse) (by
        rw [hy]; simp)
      simp [List.dropWhile_cons, ha]
  rw [claimA, List.reverse_reverse, dropWhile_idem]

theorem pyStrip_idem (s : String) : pyStrip (pyStrip s) = pyStrip s := by
  unfold pyStrip
  have h : ((⟨stripChars s.data⟩ : String)).data = stripChars s.data := rfl
  rw [h, stripChars_idem]

theorem normalize_stripped (x : String) :
    pyStrip (normalize_school_name x) = normalize_school_name x := by
  unfold normalize_school_name
  by_cases h : x = ""
  · rw [if_pos h]; rfl
  · rw [if_neg h]
    cases hfs : findSplit x.data with
    | none => exact pyStrip_idem _
    | some i => exact pyStrip_idem _

theorem normalize_fixed {y : String} (h : findSplit y.data = none) (hs : pyStrip y = y) :
    normalize_school_name y = y := by
  unfold normalize_school_name
  by_cases hy : y = ""
  · rw [if_pos hy]; exact hy.symm
  · rw [if_neg hy, h]
    exact hs

/-- C6, counterexample.  Normalization is not idempotent: a display name
with a trailing space fails the anchored pattern on the first pass (so
only the space is stripped), but the stripped result then matches the
pattern and loses its suffix on the second pass. -/
theorem c6_counterexample :
    normalize_school_name (normalize_school_name "A 花蓮縣B[C] ") ≠
      normalize_school_name "A 花蓮縣B[C] " := by
  decide

/-- C6, amended.  Normalization is idempotent on every display name whose
normalized form no longer matches the suffix pattern
`^(.+?)\s+花蓮縣[^\[]+\[[^\]]+\]$` (the second pass then only re-strips
an already stripped string). -/
theorem c6_normalize_idempotent_amended (x : String)
    (h : findSplit (normalize_school_name x).data = none) :
    normalize_school_name (normalize_school_name x) = normalize_school_name x :=
  normalize_fixed h (normalize_stripped x)

/-- Witness for `c6_normalize_idempotent_amended` at a concrete input. -/
theorem c6_witness :
    normalize_school_name (normalize_school_name "測試國小 花蓮縣花蓮市[縣市立]") =
      normalize_school_name "測試國小 花蓮縣花蓮市[縣市立]" :=
  c6_normalize_idempotent_amended "測試國小 花蓮縣花蓮市[縣市立]" (by decide)

theorem updatedSchool_name (s0 : School) (o : DetailOutcome) :
    (updatedSchool s0 o).name = s0.name := by
  unfold updatedSchool
  split
  · cases o <;> rfl
  · rfl

theorem updatedSchool_raise (s0 : School) : updatedSchool s0 DetailOutcome.raise = s0 := by
  unfold updatedSchool
  split <;> rfl

theorem find?_name {acc : List School} {nm : String} {s0 : School}
    (h : acc.find? (fun s => s.name == nm) = some s0) : s0.name = nm := by
  have := List.find?_some h
  simpa using this

theorem replaceFirst_names {nm : String} {v : School} (hv : v.name = nm)
    {acc : List School} {n : String} (h : ∃ r ∈ acc, r.name = n) :
    ∃ r ∈ replaceFirstByName nm v acc, r.name = n := by
  induction acc with
  | nil => simp at h
  | cons s t ih =>
    obtain ⟨r, hr, hn⟩ := h
    rcases List.mem_cons.1 hr with rfl | hr'
    · unfold replaceFirstByName
      by_cases hs : r.name = nm
      · rw [if_pos hs]
        exact ⟨v, by simp, by rw [hv, ← hs, hn]⟩
      · rw [if_neg hs]
        exact ⟨r, by simp, hn⟩
    · unfold replaceFirstByName
      by_cases hs : s.name = nm
      · rw [if_pos hs]
        exact ⟨r, by simp [hr'], hn⟩
      · rw [if_neg hs]
        obtain ⟨r', hr'', hn'⟩ := ih ⟨r, hr', hn⟩
        exact ⟨r', by simp [hr''], hn'⟩

theorem replaceFirst_mem_ne {nm : String} {v r : School} {acc : List School}
    (hr : r ∈ acc) (hne : r.name ≠ nm) : r ∈ replaceFirstByName nm v acc := by
  induction acc with
  | nil => simp at hr
  | cons s t ih =>
    rcases List.mem_cons.1 hr with rfl | hr'
    · unfold replaceFirstByName
      rw [if_neg hne]
      simp
    · unfold replaceFirstByName
      by_cases hs : s.name = nm
      · rw [if_pos hs]; simp [hr']
      · rw [if_neg hs]; simp [ih hr']

theorem mem_replaceFirst {nm : String} {v r : School} {acc : List School}
    (h : r ∈ replaceFirstByName nm v acc) : r ∈ acc ∨ r = v := by
  induction acc with
  | nil => simp [replaceFirstByName] at h
  | cons s t ih =>
    unfold replaceFirstByName at h
    by_cases hs : s.name = nm
    · rw [if_pos hs] at h
      rcases List.mem_cons.1 h with rfl | h'
      · exact Or.inr rfl
      · exact Or.inl (by simp [h'])
    · rw [if_neg hs] at h
      rcases List.mem_cons.1 h with rfl | h'
      · exact Or.inl (by simp)
      · rcases ih h' with h'' | h''
        · exact Or.inl (by simp [h''])
        · exact Or.inr h''

theorem processEntity_has (district : Option String) (acc : List School)
    (e : String × DetailOutcome) :
    ∃ r ∈ processEntity district acc e, r.name = e.1 := by
  unfold processEntity
  cases hf : acc.find? (fun s => s.name == e.1) with
  | some s0 =>
    dsimp only
    exact replaceFirst_names (updatedSchool_name s0 e.2 ▸ find?_name hf)
      ⟨s0, List.mem_of_find?_eq_some hf, find?_name hf⟩
  | none =>
    dsimp only
    exact ⟨updatedSchool (defaultSchool district e.1) e.2, by simp,
      by rw [updatedSchool_name]; rfl⟩

theorem processEntity_preserve {district : Option String} {acc : List School}
    {e : String × DetailOutcome} {n : String} (h : ∃ r ∈ acc, r.name = n) :
    ∃ r ∈ processEntity district acc e, r.name = n := by
  unfold processEntity
  cases hf : acc.find? (fun s => s.name == e.1) with
  | some s0 =>
    dsimp only
    exact replaceFirst_names (updatedSchool_name s0 e.2 ▸ find?_name hf) h
  | none =>
    dsimp only
    obtain ⟨r, hr, hn⟩ := h
    exact ⟨r, List.mem_append.2 (Or.inl hr), hn⟩

theorem processEntity_names_sub {district : Option String} {acc : List School}
    {e : String × DetailOutcome} {r : School} (h : r ∈ processEntity district acc e) :
    r.name ∈ acc.map School.name ∨ r.name = e.1 := by
  unfold processEntity at h
  cases hf : acc.find? (fun s => s.name == e.1) with
  | some s0 =>
    rw [hf] at h
    dsimp only at h
    rcases mem_replaceFirst h with h' | h'
    · exact Or.inl (List.mem_map.2 ⟨r, h', rfl⟩)
    · subst h'
      exact Or.inr (by rw [updatedSchool_name]; exact find?_name hf)
  | none =>
    rw [hf] at h
    dsimp only at h
    rcases List.mem_append.1 h with h' | h'
    · exact Or.inl (List.mem_map.2 ⟨r, h', rfl⟩)
    · have : r = updatedSchool (defaultSchool district e.1) e.2 := by simpa using h'
      subst this
      exact Or.inr (by rw [updatedSchool_name]; rfl)

theorem loop_preserve_exists (district : Option String) :
    ∀ (l : List (String × DetailOutcome)) (acc : List School) (n : String),
      (∃ r ∈ acc, r.name = n) →
      ∃ r ∈ l.foldl (processEntity district) acc, r.name = n := by
  intro l
  induction l with
  | nil => intro acc n h; exact h
  | cons a t ih => intro acc n h; exact ih _ n (processEntity_preserve h)

theorem loop_preserve_record (district : Option String) :
    ∀ (l : List (String × DetailOutcome)) (acc : List School) (r : School),
      r ∈ acc → (∀ e' ∈ l, e'.1 ≠ r.name) →
      r ∈ l.foldl (processEntity district) acc := by
  intro l
  induction l with
  | nil => intro acc r hr _; exact hr
  | cons a t ih =>
    intro acc r hr hl
    apply ih
    · unfold processEntity
      cases hf : acc.find? (fun s => s.name == a.1) with
      | some s0 =>
        dsimp only
        exact replaceFirst_mem_ne hr (fun hh => hl a (by simp) hh.symm)
      | none =>
        dsimp only
        exact List.mem_append.2 (Or.inl hr)
    · intro e' he'
      exact hl e' (by simp [he'])

theorem loop_contains (district : Option String) :
    ∀ (l : List (String × DetailOutcome)) (acc : List School) (e : String × DetailOutcome),
      e ∈ l → ∃ r ∈ l.foldl (processEntity district) acc, r.name = e.1 := by
  intro l
  induction l with
  | nil => intro acc e he; simp at he
  | cons a t ih =>
    intro acc e he
    rcases List.mem_cons.1 he with rfl | he'
    · exact loop_preserve_exists district t _ e.1 (processEntity_has district acc e)
    · exact ih _ e he'

theorem loop_raise_null (district : Option String) :
    ∀ (l : List (String × DetailOutcome)) (acc : List School),
      (l.map Prod.fst).Nodup →
      ∀ e ∈ l, e.2 = DetailOutcome.raise → (∀ s ∈ acc, s.name ≠ e.1) →
      ∃ r ∈ l.foldl (processEntity district) acc,
        r.name = e.1 ∧ r.classCount = none ∧ r.studentCount = none ∧
        r.teacherCount = none ∧ r.landArea = none ∧ r.buildingArea = none := by
  intro l
  induction l with
  | nil => intro acc _ e he; simp at he
  | cons a t ih =>
    intro acc hnd e he hraise hacc
    have hnd' : (a.1 ∉ t.map Prod.fst) ∧ (t.map Prod.fst).Nodup := by
      rw [List.map_cons, List.nodup_cons] at hnd
      exact hnd
    rcases List.mem_cons.1 he with rfl | he'
    · have hfind : acc.find? (fun s => s.name == e.1) = none := by
        rw [List.find?_eq_none]
        intro s hs
        simp [hacc s hs]
      have hstep : processEntity district acc e = acc ++ [defaultSchool district e.1] := by
        unfold processEntity
        rw [hfind]
        rw [hraise, updatedSchool_raise]
      rw [List.foldl_cons, hstep]
      refine ⟨defaultSchool district e.1, ?_, rfl, rfl, rfl, rfl, rfl, rfl⟩
      apply loop_preserve_record
      · simp
      · intro e' he''
        have hmem : e'.1 ∈ t.map Prod.fst := List.mem_map.2 ⟨e', he'', rfl⟩
        intro hname
        have hn2 : e'.1 = e.1 := hname
        rw [hn2] at hmem
        exact hnd'.1 hmem
    · apply ih (processEntity district acc a) hnd'.2 e he' hraise
      intro s hs
      rcases processEntity_names_sub hs with h' | h'
      · obtain ⟨r', hr', hname⟩ := List.mem_map.1 h'
        rw [← hname]
        exact hacc r' hr'
      · rw [h']
        intro hcontra
        have : e.1 ∈ t.map Prod.fst := List.mem_map.2 ⟨e, he', rfl⟩
        rw [← hcontra] at this
        exact hnd'.1 this

/-- C3.  In the per-entity loop of `parse_school_data_with_details`, a
raised detail extraction is caught at the per-entity boundary
(src/scraper.py:1567) and the loop continues: every listed entity (the
deduplicated `unique_schools`, whose names are distinct) still appears in
the output, and an entity whose extraction raised — and that was not
already present in the listing records — appears with all five numeric
fields null. -/
theorem c3_detail_failure_isolated (district : Option String) (init : List School)
    (entities : List (String × DetailOutcome))
    (hnd : (entities.map Prod.fst).Nodup) :
    (∀ e ∈ entities, ∃ r ∈ detailsLoop district init entities, r.name = e.1) ∧
    (∀ e ∈ entities, e.2 = DetailOutcome.raise → (∀ s ∈ init, s.name ≠ e.1) →
      ∃ r ∈ detailsLoop district init entities,
        r.name = e.1 ∧ r.classCount = none ∧ r.studentCount = none ∧
        r.teacherCount = none ∧ r.landArea = none ∧ r.buildingArea = none) := by
  constructor
  · intro e he
    exact loop_contains district entities init e he
  · intro e he hraise hinit
    exact loop_raise_null district entities init hnd e he hraise hinit

/-- Witness for `c3_detail_failure_isolated` at a concrete input: one
fresh entity whose extraction raises is kept with null numeric fields. -/
theorem c3_witness :
    (∃ r ∈ detailsLoop none [] [("次", DetailOutcome.raise)], r.name = "次") ∧
    (∃ r ∈ detailsLoop none [] [("次", DetailOutcome.raise)],
      r.name = "次" ∧ r.classCount = none ∧ r.studentCount = none ∧
      r.teacherCount = none ∧ r.landArea = none ∧ r.buildingArea = none) := by
  have h := c3_detail_failure_isolated none [] [("次", DetailOutcome.raise)] (by decide)
  exact ⟨h.1 ("次", DetailOutcome.raise) (by simp),
    h.2 ("次", DetailOutcome.raise) (by simp) rfl (fun s hs => absurd hs (List.not_mem_nil s))⟩

/-- C5, counterexample.  Merge is not commutative on the final field
values: when both records carry a (different) non-null value for the same
field, the field-wise merge keeps the first-seen value
(src/scraper.py:1971 only fills fields that are `None` in the existing
record), so `[A, B]` and `[B, A]` finalize different values. -/
theorem c5_counterexample :
    mergedField [{ name := "甲", classCount := some 1 },
        { name := "甲", classCount := some 2 }] "甲" NumField.cls ≠
      mergedField [{ name := "甲", classCount := some 2 },
        { name := "甲", classCount := some 1 }] "甲" NumField.cls := by
  decide


theorem fmi_comm {A B : School}
    (h1 : ∀ f, getF A f = getF B f ∨ getF A f = none ∨ getF B f = none) (f : NumField) :
    getF (fieldMergeInto A B) f = getF (fieldMergeInto B A) f := by
  rw [getF_fieldMergeInto, getF_fieldMergeInto]
  rcases h1 f with h | h | h
  · rw [h]
  · rw [h]; cases hB : getF B f <;> simp
  · rw [h]; cases hA : getF A f <;> simp

theorem mergePayload_comm (A B : School) (k0 : String)
    (h1 : ∀ f, getF A f = getF B f ∨ getF A f = none ∨ getF B f = none)
    (h2 : hasData A = false → hasData B = false → ∀ f, getF A f = getF B f) (f : NumField) :
    getF (mergePayload { A with name := k0 } B) f =
      getF (mergePayload { B with name := k0 } A) f := by
  unfold mergePayload
  by_cases hdA : hasData A = true <;> by_cases hdB : hasData B = true
  · simp only [hasData_setName, hdA, hdB, Bool.not_true, Bool.and_false, Bool.and_true,
      Bool.false_eq_true, if_false, if_true, ite_true, ite_false]
    rw [getF_fieldMergeInto_setName, getF_fieldMergeInto_setName]
    exact fmi_comm h1 f
  · have hdB' : hasData B = false := by simpa using hdB
    simp only [hasData_setName, hdA, hdB', Bool.not_true, Bool.not_false, Bool.and_false,
      Bool.and_true, Bool.true_and, Bool.false_and, Bool.false_eq_true, if_false, if_true,
      ite_true, ite_false]
    exact getF_setName A k0 f
  · have hdA' : hasData A = false := by simpa using hdA
    simp only [hasData_setName, hdA', hdB, Bool.not_true, Bool.not_false, Bool.and_false,
      Bool.and_true, Bool.true_and, Bool.false_and, Bool.false_eq_true, if_false, if_true,
      ite_true, ite_false]
    exact (getF_setName B k0 f).symm
  · have hdA' : hasData A = false := by simpa using hdA
    have hdB' : hasData B = false := by simpa using hdB
    have hf := h2 hdA' hdB' f
    simp only [hasData_setName, hdA', hdB', Bool.not_false, Bool.and_false, Bool.and_true,
      Bool.true_and, Bool.false_and, Bool.and_self, Bool.false_eq_true, if_false, if_true,
      ite_true, ite_false]
    split
    · split
      · exact hf.symm
      · exact (getF_setName B k0 f).symm
    · split
      · exact getF_setName A k0 f
      · exact (getF_setName A k0 f).trans (hf.trans (getF_setName B k0 f).symm)

theorem findByName_cons_pos {k : String} {r : School} {t : List School} (h : r.name = k) :
    findByName k (r :: t) = some r := by
  rw [show findByName k (r :: t) = if r.name = k then some r else findByName k t from rfl,
    if_pos h]

theorem findByName_cons_neg {k : String} {r : School} {t : List School} (h : r.name ≠ k) :
    findByName k (r :: t) = findByName k t := by
  rw [show findByName k (r :: t) = if r.name = k then some r else findByName k t from rfl,
    if_neg h]

theorem mergeStep_single {k0 : String} {E C : School} (hC : C.name ≠ "")
    (hk : normalize_school_name C.name = k0) :
    mergeStep [(k0, E)] C = [(k0, { mergePayload E C with name := k0 })] := by
  unfold mergeStep
  rw [if_neg hC, hk]
  have hl : lookupA k0 [(k0, E)] = some E := by simp [lookupA]
  rw [hl]
  dsimp only
  have hrep : ∀ v : School, replaceA k0 v [(k0, E)] = [(k0, v)] := by
    intro v; simp [replaceA]
  unfold mergePayload
  by_cases c1 : (hasData C && !hasData E) = true
  · rw [if_pos c1, if_pos c1, hrep]
  · rw [if_neg c1, if_neg c1]
    by_cases c2 : (hasData C && hasData E) = true
    · rw [if_pos c2, if_pos c2, hrep]
    · rw [if_neg c2, if_neg c2]
      by_cases c3 : (!hasData C && hasData E) = true
      · rw [if_pos c3, if_pos c3, hrep]
      · rw [if_neg c3, if_neg c3]
        by_cases c4 : C.name.length > E.name.length
        · rw [if_pos c4, if_pos c4, hrep]
        · rw [if_neg c4, if_neg c4, hrep]

theorem mergeStep_empty_name {s : School} (hs : s.name = "") (x : List (String × School)) :
    mergeStep x s = x := by
  unfold mergeStep
  rw [if_pos hs]

theorem mergeStep_nil {s : School} (hs : s.name ≠ "") :
    mergeStep [] s =
      [(normalize_school_name s.name, { s with name := normalize_school_name s.name })] := by
  unfold mergeStep
  rw [if_neg hs]
  rfl

/-- C5, pair part (amended).  Merging `[A, B]` and `[B, A]` finalizes the
same numeric fields for every normalized name, provided A and B never
both carry a non-null value for the same field with different values, and
that when neither record has truthy data their numeric fields coincide. -/
theorem c5_pair (A B : School)
    (h1 : ∀ f, getF A f = getF B f ∨ getF A f = none ∨ getF B f = none)
    (h2 : hasData A = false → hasData B = false → ∀ f, getF A f = getF B f) :
    ∀ k f, mergedField [A, B] k f = mergedField [B, A] k f := by
  intro k f
  unfold mergedField merge_school_data
  by_cases hA : A.name = ""
  · simp only [List.foldl_cons, List.foldl_nil, mergeStep_empty_name hA]
  · by_cases hB : B.name = ""
    · simp only [List.foldl_cons, List.foldl_nil, mergeStep_empty_name hB]
    · simp only [List.foldl_cons, List.foldl_nil, mergeStep_nil hA, mergeStep_nil hB]
      by_cases hkk : normalize_school_name B.name = normalize_school_name A.name
      · rw [mergeStep_single hB hkk,
          mergeStep_single hA (hkk.symm : normalize_school_name A.name = normalize_school_name B.name)]
        simp only [List.map_cons, List.map_nil]
        by_cases hkeq : normalize_school_name A.name = k
        · rw [findByName_cons_pos (show
              ({ mergePayload { A with name := normalize_school_name A.name } B with
                name := normalize_school_name A.name } : School).name = k from hkeq),
            findByName_cons_pos (show
              ({ mergePayload { B with name := normalize_school_name B.name } A with
                name := normalize_school_name B.name } : School).name = k from hkk.trans hkeq)]
          simp only [Option.map_some']
          congr 1
          rw [getF_setName, getF_setName]
          have hmain := mergePayload_comm A B (normalize_school_name A.name) h1 h2 f
          rw [show normalize_school_name B.name = normalize_school_name A.name from hkk]
          exact hmain
        · rw [findByName_cons_neg (show
              ({ mergePayload { A with name := normalize_school_name A.name } B with
                name := normalize_school_name A.name } : School).name ≠ k from hkeq),
            findByName_cons_neg (show
              ({ mergePayload { B with name := normalize_school_name B.name } A with
                name := normalize_school_name B.name } : School).name ≠ k from
              fun hh => hkeq ((hkk.symm).trans hh))]
      · have hkk' : normalize_school_name A.name ≠ normalize_school_name B.name :=
          fun h => hkk h.symm
        have hlookB : lookupA (normalize_school_name B.name)
            [(normalize_school_name A.name, { A with name := normalize_school_name A.name })] =
            none := by
          simp [lookupA, hkk']
        have hlookA : lookupA (normalize_school_name A.name)
            [(normalize_school_name B.name, { B with name := normalize_school_name B.name })] =
            none := by
          simp [lookupA, hkk]
        have sAB : mergeStep
            [(normalize_school_name A.name, { A with name := normalize_school_name A.name })] B =
            [(normalize_school_name A.name, { A with name := normalize_school_name A.name }),
             (normalize_school_name B.name, { B with name := normalize_school_name B.name })] := by
          unfold mergeStep
          rw [if_neg hB, hlookB]
          rfl
        have sBA : mergeStep
            [(normalize_school_name B.name, { B with name := normalize_school_name B.name })] A =
            [(normalize_school_name B.name, { B with name := normalize_school_name B.name }),
             (normalize_school_name A.name, { A with name := normalize_school_name A.name })] := by
          unfold mergeStep
          rw [if_neg hA, hlookA]
          rfl
        rw [sAB, sBA]
        simp only [List.map_cons, List.map_nil]
        by_cases hak : normalize_school_name A.name = k
        · have hbk : normalize_school_name B.name ≠ k := fun hh => hkk (hh.trans hak.symm)
          rw [findByName_cons_pos (show
              ({ A with name := normalize_school_name A.name } : School).name = k from hak),
            findByName_cons_neg (show
              ({ B with name := normalize_school_name B.name } : School).name ≠ k from hbk),
            findByName_cons_pos (show
              ({ A with name := normalize_school_name A.name } : School).name = k from hak)]
        · by_cases hbk : normalize_school_name B.name = k
          · rw [findByName_cons_neg (show
                ({ A with name := normalize_school_name A.name } : School).name ≠ k from hak),
              findByName_cons_pos (show
                ({ B with name := normalize_school_name B.name } : School).name = k from hbk),
              findByName_cons_pos (show
                ({ B with name := normalize_school_name B.name } : School).name = k from hbk)]
          · rw [findByName_cons_neg (show
                ({ A with name := normalize_school_name A.name } : School).name ≠ k from hak),
              findByName_cons_neg (show
                ({ B with name := normalize_school_name B.name } : School).name ≠ k from hbk),
              findByName_cons_neg (show
                ({ B with name := normalize_school_name B.name } : School).name ≠ k from hbk),
              findByName_cons_neg (show
                ({ A with name := normalize_school_name A.name } : School).name ≠ k from hak)]

theorem setName_self (r : School) : { r with name := r.name } = r := rfl

theorem merge_fixed_aux :
    ∀ (l : List School) (acc : List (String × School)),
      (∀ r ∈ l, r.name ≠ "" ∧ normalize_school_name r.name = r.name) →
      (l.map School.name).Nodup →
      (∀ r ∈ l, lookupA r.name acc = none) →
      l.foldl mergeStep acc = acc ++ l.map (fun r => (r.name, r)) := by
  intro l
  induction l with
  | nil => intro acc _ _ _; simp
  | cons r t ih =>
    intro acc hprop hnd hlk
    have hr := hprop r (by simp)
    have hstep : mergeStep acc r = acc ++ [(r.name, r)] := by
      unfold mergeStep
      rw [if_neg hr.1, hr.2, hlk r (by simp)]
    have hnd' : (t.map School.name).Nodup ∧ r.name ∉ t.map School.name := by
      rw [List.map_cons, List.nodup_cons] at hnd
      exact ⟨hnd.2, hnd.1⟩
    rw [List.foldl_cons, hstep,
      ih (acc ++ [(r.name, r)]) (fun r' hr' => hprop r' (by simp [hr'])) hnd'.1 ?_]
    · simp
    · intro r' hr'
      rw [lookupA_append_none (hlk r' (by simp [hr']))]
      have hne : r.name ≠ r'.name := by
        intro hh
        exact hnd'.2 (by rw [hh]; exact List.mem_map.2 ⟨r', hr', rfl⟩)
      simp [lookupA, hne]

theorem merge_names_eq_keys (ss : List School) :
    (merge_school_data ss).map School.name = (ss.foldl mergeStep []).map Prod.fst := by
  have hNames : NamesOk (ss.foldl mergeStep []) :=
    namesOk_fold (fun p hp => absurd hp (List.not_mem_nil p)) ss
  unfold merge_school_data
  rw [List.map_map]
  apply List.map_congr_left
  intro p hp
  exact hNames p hp

/-- C5, idempotence part (amended).  Re-merging the merged output is the
identity, provided every input display name normalizes to a non-empty
string that is itself a fixed point of normalization. -/
theorem merge_idem (ss : List School)
    (h3 : ∀ s ∈ ss, s.name ≠ "" →
      normalize_school_name s.name ≠ "" ∧
      normalize_school_name (normalize_school_name s.name) = normalize_school_name s.name) :
    merge_school_data (merge_school_data ss) = merge_school_data ss := by
  have hNames : NamesOk (ss.foldl mergeStep []) :=
    namesOk_fold (fun p hp => absurd hp (List.not_mem_nil p)) ss
  have hprop : ∀ r ∈ merge_school_data ss,
      r.name ≠ "" ∧ normalize_school_name r.name = r.name := by
    intro r hr
    obtain ⟨p, hp, rfl⟩ := List.mem_map.1 hr
    have hpn := hNames p hp
    rcases keys_fold_origin ss [] p hp with h' | ⟨s, hs, hn, he⟩
    · simp at h'
    · have h3s := h3 s hs hn
      exact ⟨by rw [hpn, he]; exact h3s.1, by rw [hpn, he]; exact h3s.2⟩
  have hnd : ((merge_school_data ss).map School.name).Nodup := by
    rw [merge_names_eq_keys]
    exact keysNodup_fold (by simp [KeysNodup]) ss
  calc merge_school_data (merge_school_data ss)
      = ((merge_school_data ss).foldl mergeStep []).map Prod.snd := rfl
    _ = ([] ++ (merge_school_data ss).map (fun (r : School) => (r.name, r))).map Prod.snd := by
        rw [merge_fixed_aux (merge_school_data ss) [] hprop hnd (fun r _ => rfl)]
    _ = merge_school_data ss := by
        rw [List.nil_append, List.map_map]
        show (merge_school_data ss).map (fun r => r) = merge_school_data ss
        exact List.map_id' _

/-- C5, amended.  Merge is commutative on the final numeric fields for a
pair `[A, B]` versus `[B, A]` provided A and B never both carry different
non-null values for the same field and, when neither has truthy data,
their numeric fields coincide; and merge is idempotent as a function
(re-merging its output changes nothing) provided every input name
normalizes to a non-empty fixed point of normalization. -/
theorem c5_merge_commutative_idempotent_amended (A B : School) (ss : List School)
    (h1 : ∀ f, getF A f = getF B f ∨ getF A f = none ∨ getF B f = none)
    (h2 : hasData A = false → hasData B = false → ∀ f, getF A f = getF B f)
    (h3 : ∀ s ∈ ss, s.name ≠ "" →
      normalize_school_name s.name ≠ "" ∧
      normalize_school_name (normalize_school_name s.name) = normalize_school_name s.name) :
    (∀ k f, mergedField [A, B] k f = mergedField [B, A] k f) ∧
    merge_school_data (merge_school_data ss) = merge_school_data ss :=
  ⟨c5_pair A B h1 h2, merge_idem ss h3⟩

/-- Witness for `c5_merge_commutative_idempotent_amended` at concrete
inputs. -/
theorem c5_witness :
    mergedField [{ name := "乙", classCount := some 3 }, { name := "乙", studentCount := some 4 }]
        "乙" NumField.cls =
      mergedField [{ name := "乙", studentCount := some 4 }, { name := "乙", classCount := some 3 }]
        "乙" NumField.cls ∧
    merge_school_data (merge_school_data [{ name := "乙", classCount := some 3 }]) =
      merge_school_data [{ name := "乙", classCount := some 3 }] :=
  ⟨(c5_merge_commutative_idempotent_amended
      { name := "乙", classCount := some 3 } { name := "乙", studentCount := some 4 }
      [{ name := "乙", classCount := some 3 }]
      (by decide) (by decide) (by decide)).1 "乙" NumField.cls,
   (c5_merge_commutative_idempotent_amended
      { name := "乙", classCount := some 3 } { name := "乙", studentCount := some 4 }
      [{ name := "乙", classCount := some 3 }]
      (by decide) (by decide) (by decide)).2⟩
